import Mathlib

/-!
Verification of the Adaptive Response-Strategy Selector (ARS): the per-chat
Thompson Sampling bandit of this repository.

The embedding translates, from the source:
  * the static arm registry `ARMS` and the per-chat `BanditChatState`
    documents (banditService.js, banditChatStateSchema.js),
  * `getOrCreateBanditState`, `chooseArm`, `updateArm`, `getBanditStats`
    (banditService.js),
  * the feedback endpoint `submitFeedback` (chatController.js),
  * the Beta/Gamma posterior sampler `sampleBeta` / `sampleGamma` / `randn`
    (banditService.js), over the reals.

The MongoDB collection of `BanditChatState` documents is modelled as a list
of documents; `findOne` is the first document whose `chat` field matches,
and mongoose `save()` replaces the first document with the same `chat` key
(the schema has a unique index on `chat`) or inserts a new one.  All counter
fields are JS numbers that this service only ever sets to 1.0 / 0.0 and
increments by 1, so they take exact nonnegative integer values and are
modelled by `Nat`.  Operations are sequential (one request at a time); the
duplicate-key race branch of `getOrCreateBanditState` is unreachable in a
sequential model and is not represented.
-/

namespace ARS

/-- One entry of the static arm registry (banditService.js `ARMS`). -/
structure ArmConfig where
  armId : String
  stage : String
  modelName : String
  notes : String
  temperature : ℚ
deriving DecidableEq, Repr

/-- The static arm registry `ARMS` (with the default `GEMINI_MODEL`). -/
def ARMS : List ArmConfig :=
  [ { armId := "unified_base", stage := "unified",
      modelName := "gemini-2.5-flash", notes := "Base unified prompt",
      temperature := 0.1 },
    { armId := "unified_strict_json", stage := "unified",
      modelName := "gemini-2.5-flash", notes := "Stricter JSON-only response",
      temperature := 0.05 } ]

/-- Per-arm statistics stored inside a `BanditChatState` document
(banditChatStateSchema.js `ArmStatsSchema`). -/
structure ArmStats where
  armId : String
  alpha : ℕ
  beta : ℕ
  pulls : ℕ
deriving DecidableEq, Repr

/-- A `BanditChatState` document: one per chat, holding the arm statistics. -/
structure BanditState where
  chat : String
  arms : List ArmStats
deriving DecidableEq, Repr

/-- The `BanditChatState` collection. -/
abbrev Store := List BanditState

/-- `BanditChatState.findOne(\x7b chat: chatId \x7d)`: first document whose
`chat` field matches. -/
def findState (store : Store) (chatId : String) : Option BanditState :=
  store.find? (fun st => st.chat == chatId)

/-- Mongoose `state.save()`: replace the (unique) document with this `chat`
key, or insert the document if none exists yet. -/
def saveState : Store → BanditState → Store
  | [], st => [st]
  | s :: rest, st =>
      if s.chat == st.chat then st :: rest else s :: saveState rest st

/-- A fresh `ArmStats` entry with the neutral prior, as pushed by
`getOrCreateBanditState` for a registry arm. -/
def mkDefaultStats (a : ArmConfig) : ArmStats :=
  { armId := a.armId, alpha := 1, beta := 1, pulls := 0 }

/-- The arms of a freshly created state: every registry arm at the neutral
prior (`ARMS.map` in the `new BanditChatState` branch). -/
def defaultArms : List ArmStats := ARMS.map mkDefaultStats

/-- Registry arms absent from the stored arm list (the reconciliation loop
checks each `ARMS` entry against the set of existing arm ids). -/
def missingArms (arms : List ArmStats) : List ArmConfig :=
  ARMS.filter (fun a => !(arms.any (fun s => s.armId == a.armId)))

/-- `getOrCreateBanditState(chatId)`: load the chat's state; if absent,
create it with every registry arm at the neutral prior and save; if present,
append any registry arm missing from it (reconciliation) and save only when
something was appended.  Returns the resulting state and the collection. -/
def getOrCreateBanditState (store : Store) (chatId : String) :
    BanditState × Store :=
  match findState store chatId with
  | none =>
      let st : BanditState := { chat := chatId, arms := defaultArms }
      (st, saveState store st)
  | some st =>
      let added := (missingArms st.arms).map mkDefaultStats
      if added.isEmpty then (st, store)
      else
        let st2 : BanditState := { chat := st.chat, arms := st.arms ++ added }
        (st2, saveState store st2)

/-- The in-place mutation of the located `armStats`: `pulls += 1`, and
`alpha += 1` when `reward === 1`, otherwise `beta += 1`.  The reward is an
integer because the endpoint admits exactly 0 and 1 after validation. -/
def bump (a : ArmStats) (reward : ℤ) : ArmStats :=
  { a with pulls := a.pulls + 1,
           alpha := if reward = 1 then a.alpha + 1 else a.alpha,
           beta := if reward = 1 then a.beta else a.beta + 1 }

/-- Mutate the first arm with the given id (the `state.arms.find` target)
and leave every other entry as it was. -/
def updateFirst : List ArmStats → String → ℤ → List ArmStats
  | [], _, _ => []
  | a :: rest, armId, reward =>
      if a.armId == armId then bump a reward :: rest
      else a :: updateFirst rest armId reward

/-- `updateArm(chatId, armId, reward)`: load (or lazily create) the state,
locate the arm; if absent return `null` without saving, otherwise apply the
reward, save the document and return the post-update statistics. -/
def updateArm (store : Store) (chatId armId : String) (reward : ℤ) :
    Option ArmStats × Store :=
  let p := getOrCreateBanditState store chatId
  match p.1.arms.find? (fun a => a.armId == armId) with
  | none => (none, p.2)
  | some a =>
      let st2 : BanditState :=
        { chat := p.1.chat, arms := updateFirst p.1.arms armId reward }
      (some (bump a reward), saveState p.2 st2)

/-- The arm statistics used for sampling: the stored entry for this arm id,
or the `\x7b alpha: 1.0, beta: 1.0, pulls: 0 \x7d` fallback object. -/
def armStatsFor (state : BanditState) (armId : String) : ArmStats :=
  (state.arms.find? (fun a => a.armId == armId)).getD
    { armId := armId, alpha := 1, beta := 1, pulls := 0 }

/-- The sampling loop of `chooseArm`: one posterior draw per candidate arm,
in candidate order.  `sampler i a b` stands for the value of the i-th
`sampleBeta(a, b)` call of this invocation (the draw is randomized, so it is
kept abstract here; its range is settled separately for the real-valued
sampler). -/
def armSamplesAux (state : BanditState) (sampler : ℕ → ℕ → ℕ → ℚ) :
    ℕ → List ArmConfig → List (ArmConfig × ℚ)
  | _, [] => []
  | i, c :: cs =>
      let s := armStatsFor state c.armId
      (c, sampler i s.alpha s.beta) :: armSamplesAux state sampler (i + 1) cs

/-- The comparator `(a, b) => b.sample - a.sample`: `p` sorts before (or
ties with) `q` exactly when `q`'s sample is at most `p`'s.  JS `sort` is
stable, which `List.mergeSort` matches. -/
def ledesc {α : Type} (p q : α × ℚ) : Bool := q.2 ≤ p.2

/-- The value returned by `chooseArm`: the chosen arm's full config. -/
structure ArmSelection where
  armId : String
  modelName : String
  temperature : ℚ
  notes : String
deriving DecidableEq, Repr

/-- Build the returned selection object from a registry config. -/
def toSelection (c : ArmConfig) : ArmSelection :=
  { armId := c.armId, modelName := c.modelName,
    temperature := c.temperature, notes := c.notes }

/-- The candidate arms of a stage: `ARMS.filter((a) => a.stage === stage)`. -/
def candidateArms (stage : String) : List ArmConfig :=
  ARMS.filter (fun a => a.stage == stage)

/-- The posterior draw made for the j-th candidate arm of a stage: one
`sampleBeta(armStats.alpha, armStats.beta)` call on that arm's stored (or
fallback) statistics. -/
def drawnSample (state : BanditState) (sampler : ℕ → ℕ → ℕ → ℚ)
    (stage : String) (j : ℕ) (hj : j < (candidateArms stage).length) : ℚ :=
  let s := armStatsFor state ((candidateArms stage).get ⟨j, hj⟩).armId
  sampler j s.alpha s.beta

/-- The selection made by `chooseArm` from a loaded state: filter the
registry by stage (`none` models the thrown `No arms found for stage`
error), draw one posterior sample per candidate, sort descending by sample
(stably, as JS `sort` is) and return the head's configuration. -/
def chooseArmResult (state : BanditState) (stage : String)
    (sampler : ℕ → ℕ → ℕ → ℚ) : Option ArmSelection :=
  let candidates := candidateArms stage
  if candidates.isEmpty then none
  else
    let samples := armSamplesAux state sampler 0 candidates
    match (samples.mergeSort ledesc).head? with
    | some chosen => some (toSelection chosen.1)
    | none => none

/-- `chooseArm(chatId, stage)`: load/create the state, then select. -/
def chooseArm (store : Store) (chatId stage : String)
    (sampler : ℕ → ℕ → ℕ → ℚ) : Option ArmSelection × Store :=
  let p := getOrCreateBanditState store chatId
  (chooseArmResult p.1 stage sampler, p.2)

/-- `getBanditStats(chatId)`: load/create the state and return the mapping
armId to (alpha, beta, pulls) built by the `reduce`. -/
def getBanditStats (store : Store) (chatId : String) :
    List (String × ℕ × ℕ × ℕ) × Store :=
  let p := getOrCreateBanditState store chatId
  (p.1.arms.map (fun a => (a.armId, a.alpha, a.beta, a.pulls)), p.2)

/-!
The feedback endpoint `submitFeedback` (chatController.js).  JSON plumbing,
authentication and the project/team access-control joins are out of scope
(spec section 1); the model keeps exactly the decisions the endpoint makes:
request validation, message resolution, chat existence (a chat id is in
`Db.chats` when the chat exists and the requester passes the access checks),
the write-once feedback gate, and the call into `updateArm`.
-/

/-- The slice of a `Message` document the endpoint reads and writes. -/
structure Message where
  id : String
  chat : String
  sender : String
  armId : Option String
  feedback : Option String
deriving DecidableEq, Repr

/-- The database state `submitFeedback` touches. -/
structure Db where
  messages : List Message
  chats : List String
  bandit : Store
deriving DecidableEq, Repr

/-- The possible responses of the endpoint. -/
inductive FeedbackResult where
  | badRequest (error : String)
  | notFound (error : String)
  | alreadyRated (armId : String) (reward : ℤ) (existingFeedback : String)
  | success (armId : String) (reward : ℤ) (chatId : String)
      (newStats : Option ArmStats)
deriving DecidableEq, Repr

/-- `Message.findById`. -/
def findMessage (msgs : List Message) (mid : String) : Option Message :=
  msgs.find? (fun m => m.id == mid)

/-- The atomic `findOneAndUpdate(\x7b _id, feedback: null \x7d, ...)`: set
the feedback of this message if it is still null. -/
def setFeedbackIfNull (msgs : List Message) (mid fb : String) :
    List Message :=
  msgs.map (fun m =>
    if m.id == mid && m.feedback.isNone then { m with feedback := some fb }
    else m)

/-- `submitFeedback`: validate `arm_id` and `reward`; resolve the effective
chat and arm from `messageId` when given (falling back to the request's
`arm_id` when the message carries none); check chat existence/access; apply
the write-once feedback gate when a `messageId` was given (returning
`already_rated` with the stored feedback and touching nothing); otherwise
set the message's feedback and call `updateArm`. -/
def submitFeedback (db : Db) (armIdReq : String) (reward : ℤ)
    (messageId chatId : Option String) : FeedbackResult × Db :=
  if armIdReq == "" || (reward != 0 && reward != 1) then
    (.badRequest "arm_id and reward (0 or 1) are required.", db)
  else
    match messageId with
    | some mid =>
        match findMessage db.messages mid with
        | none => (.notFound "Message not found.", db)
        | some msg =>
            if msg.sender != "chatbot" then
              (.badRequest "Feedback can only be submitted for chatbot messages.",
                db)
            else
              let effArmId :=
                match msg.armId with
                | some a => if a == "" then armIdReq else a
                | none => armIdReq
              if !(db.chats.contains msg.chat) then
                (.notFound "Chat not found.", db)
              else
                match msg.feedback with
                | some fb => (.alreadyRated effArmId reward fb, db)
                | none =>
                    let nextFeedback : String :=
                      if reward = 1 then "up" else "down"
                    let msgs2 := setFeedbackIfNull db.messages mid nextFeedback
                    let q := updateArm db.bandit msg.chat effArmId reward
                    (.success effArmId reward msg.chat q.1,
                      { db with messages := msgs2, bandit := q.2 })
    | none =>
        match chatId with
        | some cid =>
            if cid == "" then
              (.badRequest
                "messageId (preferred) or chatId is required to update per-chat bandit state.",
                db)
            else if !(db.chats.contains cid) then
              (.notFound "Chat not found.", db)
            else
              let q := updateArm db.bandit cid armIdReq reward
              (.success armIdReq reward cid q.1, { db with bandit := q.2 })
        | none =>
            (.badRequest
              "messageId (preferred) or chatId is required to update per-chat bandit state.",
              db)

/-- N identical `submitFeedback` requests carrying only a `chatId`,
applied in sequence against the database. -/
def iterateFeedback (armIdReq : String) (reward : ℤ) (cid : String) :
    ℕ → Db → Db
  | 0, db => db
  | n + 1, db =>
      (submitFeedback (iterateFeedback armIdReq reward cid n db)
        armIdReq reward none (some cid)).2

/-!
The posterior sampler (banditService.js `sampleBeta`, `sampleGamma`,
`randn`), embedded over the reals: `Math.random()` is modelled as a stream
`u : Nat -> Real` of uniform draws from the open unit interval, consumed in
order, and the two rejection loops of Marsaglia-Tsang carry explicit fuel
(the loops terminate only with probability one, not on every random
stream); running out of fuel yields `none`, which models non-termination of
the rejection loop, not a failure of the sampler — the code raises no
error on any input.
-/

/-- `randn()`: Box-Muller from two uniforms. -/
noncomputable def randn (u1 u2 : ℝ) : ℝ :=
  Real.sqrt (-2 * Real.log u1) * Real.cos (2 * Real.pi * u2)

/-- The inner do-while of `sampleGamma`: draw `x = randn()`, set
`v = 1 + c * x`, retry while `v <= 0`.  Consumes two uniforms per try;
returns `(x, v, next position)`. -/
noncomputable def gammaInner (c : ℝ) (u : ℕ → ℝ) :
    ℕ → ℕ → Option (ℝ × ℝ × ℕ)
  | 0, _ => none
  | fuel + 1, k =>
      let x := randn (u k) (u (k + 1))
      let v := 1 + c * x
      if v ≤ 0 then gammaInner c u fuel (k + 2) else some (x, v, k + 2)

/-- The outer acceptance loop of `sampleGamma` for shape at least 1:
cube `v`, draw a uniform `u`, accept `d * v` on either Marsaglia-Tsang
test, otherwise retry. -/
noncomputable def gammaLoop (d c : ℝ) (u : ℕ → ℝ) (innerFuel : ℕ) :
    ℕ → ℕ → Option (ℝ × ℕ)
  | 0, _ => none
  | fuel + 1, k =>
      match gammaInner c u innerFuel k with
      | none => none
      | some (x, v0, k1) =>
          let v := v0 * v0 * v0
          let uu := u k1
          if uu < 1 - 0.0331 * (x * x) * (x * x) then some (d * v, k1 + 1)
          else if Real.log uu < 0.5 * x * x + d * (1 - v + Real.log v) then
            some (d * v, k1 + 1)
          else gammaLoop d c u innerFuel fuel (k1 + 1)

/-- `sampleGamma(shape)`: for shape below 1 use the boosting identity
`Gamma(shape) = Gamma(shape + 1) * U^(1 / shape)`; otherwise run
Marsaglia-Tsang with `d = shape - 1/3`, `c = 1 / sqrt(9 d)`. -/
noncomputable def sampleGamma (u : ℕ → ℝ) : ℕ → ℝ → ℕ → Option (ℝ × ℕ)
  | 0, _, _ => none
  | fuel + 1, shape, k =>
      if shape < 1 then
        match sampleGamma u fuel (shape + 1) k with
        | none => none
        | some (g, k1) => some (g * (u k1) ^ (1 / shape), k1 + 1)
      else
        let d := shape - 1 / 3
        let c := 1 / Real.sqrt (9 * d)
        gammaLoop d c u (fuel + 1) (fuel + 1) k

/-- `sampleBeta(alpha, beta) = Ga / (Ga + Gb)` from two Gamma draws. -/
noncomputable def sampleBeta (u : ℕ → ℝ) (fuel : ℕ) (alpha beta : ℝ)
    (k : ℕ) : Option ℝ :=
  match sampleGamma u fuel alpha k with
  | none => none
  | some (ga, k1) =>
      match sampleGamma u fuel beta k1 with
      | none => none
      | some (gb, _) => some (ga / (ga + gb))

/-- The sampler's draw lies strictly inside the unit interval whenever the
rejection loops terminated within the given fuel. -/
def inOpenUnit : Option ℝ → Prop
  | none => True
  | some r => 0 < r ∧ r < 1

/-- k successive reward applications to the same arm of an arm list. -/
def updateFirstPow (arms : List ArmStats) (armId : String) (reward : ℤ) :
    ℕ → List ArmStats
  | 0 => arms
  | k + 1 => updateFirst (updateFirstPow arms armId reward k) armId reward

/-- The statistics of an arm that started at the neutral prior and received
k identical rewards. -/
def statsAfter (armId : String) (reward : ℤ) (k : ℕ) : ArmStats :=
  { armId := armId,
    alpha := 1 + (if reward = 1 then k else 0),
    beta := 1 + (if reward = 1 then 0 else k),
    pulls := k }

/-- The per-arm invariant of the spec's data model: priors at least 1,
nonnegative pull count, and pulls accounting exactly for the rewards. -/
def ArmInv (a : ArmStats) : Prop :=
  1 ≤ a.alpha ∧ 1 ≤ a.beta ∧ 0 ≤ a.pulls ∧
    a.pulls = (a.alpha - 1) + (a.beta - 1)

/-- Every arm of every stored state satisfies the per-arm invariant. -/
def StoreInv (store : Store) : Prop :=
  ∀ st ∈ store, ∀ a ∈ st.arms, ArmInv a

/-- The collections reachable from an empty collection by the bandit
service's operations. -/
inductive Reachable : Store → Prop where
  | init : Reachable []
  | load (store : Store) (cid : String) : Reachable store →
      Reachable (getOrCreateBanditState store cid).2
  | choose (store : Store) (cid stage : String)
      (sampler : ℕ → ℕ → ℕ → ℚ) : Reachable store →
      Reachable (chooseArm store cid stage sampler).2
  | update (store : Store) (cid armId : String) (reward : ℤ) :
      Reachable store → Reachable (updateArm store cid armId reward).2
  | stats (store : Store) (cid : String) : Reachable store →
      Reachable (getBanditStats store cid).2

/-! Store basics: how `findState` and membership interact with `saveState`. -/

lemma findState_saveState (store : Store) (st : BanditState) (c : String) :
    findState (saveState store st) c =
      if st.chat = c then some st else findState store c := by
  induction store with
  | nil =>
      by_cases h : st.chat = c
      · simp [saveState, findState, List.find?, h]
      · have hb : (st.chat == c) = false := by simpa using h
        simp [saveState, findState, List.find?, h, hb]
  | cons s rest ih =>
      by_cases hs : s.chat = st.chat
      · by_cases hc : st.chat = c
        · simp [saveState, findState, List.find?, hs, hc]
        · have hsc : ¬ s.chat = c := by rw [hs]; exact hc
          have hb1 : (st.chat == c) = false := by simpa using hc
          have hb2 : (s.chat == c) = false := by simpa using hsc
          simp [saveState, findState, List.find?, hs, hc, hb1, hb2]
      · have hbs : (s.chat == st.chat) = false := by simpa using hs
        by_cases hc : s.chat = c
        · have hstc : ¬ st.chat = c := by
            intro h; exact hs (by rw [hc, h])
          have hcst : ¬ c = st.chat := fun h => hstc h.symm
          simp [saveState, findState, List.find?, hbs, hc, hstc, hcst]
        · have hb2 : (s.chat == c) = false := by simpa using hc
          simpa [saveState, findState, List.find?, hbs, hc, hb2] using ih

lemma mem_saveState {store : Store} {st s : BanditState}
    (h : s ∈ saveState store st) : s = st ∨ s ∈ store := by
  induction store with
  | nil => simpa [saveState] using h
  | cons x rest ih =>
      by_cases hx : x.chat = st.chat
      · simp only [saveState, hx, beq_self_eq_true, if_true,
          List.mem_cons] at h
        rcases h with h | h
        · exact Or.inl h
        · exact Or.inr (List.mem_cons_of_mem _ h)
      · simp only [saveState, beq_eq_false_iff_ne, ne_eq, hx,
          not_false_eq_true, if_neg, List.mem_cons,
          beq_iff_eq] at h
        rcases h with h | h
        · exact Or.inr (h ▸ List.mem_cons_self _ _)
        · rcases ih h with h2 | h2
          · exact Or.inl h2
          · exact Or.inr (List.mem_cons_of_mem _ h2)

lemma self_mem_saveState (store : Store) (st : BanditState) :
    st ∈ saveState store st := by
  induction store with
  | nil => simp [saveState]
  | cons x rest ih =>
      by_cases hx : x.chat = st.chat <;>
        simp [saveState, hx, ih]

lemma findState_chat {store : Store} {c : String} {st : BanditState}
    (h : findState store c = some st) : st.chat = c := by
  have := List.find?_some h
  simpa using this

lemma findState_mem {store : Store} {c : String} {st : BanditState}
    (h : findState store c = some st) : st ∈ store :=
  List.mem_of_find?_eq_some h

/-! Reward application: structure of `updateFirst`. -/

lemma bump_armId (a : ArmStats) (r : ℤ) : (bump a r).armId = a.armId := rfl

lemma updateFirst_armIds (arms : List ArmStats) (armId : String) (r : ℤ) :
    (updateFirst arms armId r).map (fun s => s.armId) =
      arms.map (fun s => s.armId) := by
  induction arms with
  | nil => rfl
  | cons a rest ih =>
      by_cases h : a.armId = armId <;>
        simp [updateFirst, h, bump_armId, ih]

lemma find?_updateFirst (arms : List ArmStats) (armId : String) (r : ℤ) :
    (updateFirst arms armId r).find? (fun s => s.armId == armId) =
      (arms.find? (fun s => s.armId == armId)).map (fun a => bump a r) := by
  induction arms with
  | nil => rfl
  | cons a rest ih =>
      by_cases h : a.armId = armId
      · simp [updateFirst, List.find?, h, bump_armId]
      · have hb : (a.armId == armId) = false := by simpa using h
        simp [updateFirst, List.find?, hb, ih]

lemma updateFirst_length (arms : List ArmStats) (armId : String) (r : ℤ) :
    (updateFirst arms armId r).length = arms.length := by
  induction arms with
  | nil => rfl
  | cons a rest ih =>
      by_cases h : a.armId = armId <;> simp [updateFirst, h, ih]

lemma mem_updateFirst {arms : List ArmStats} {armId : String} {r : ℤ}
    {b : ArmStats} (h : b ∈ updateFirst arms armId r) :
    b ∈ arms ∨ ∃ a ∈ arms, b = bump a r := by
  induction arms with
  | nil => simp [updateFirst] at h
  | cons a rest ih =>
      by_cases ha : a.armId = armId
      · simp only [updateFirst, ha, beq_self_eq_true, if_true,
          List.mem_cons] at h
        rcases h with h | h
        · exact Or.inr ⟨a, List.mem_cons_self _ _, h⟩
        · exact Or.inl (List.mem_cons_of_mem _ h)
      · have hb : (a.armId == armId) = false := by simpa using ha
        simp only [updateFirst, hb, Bool.false_eq_true, if_neg,
          not_false_eq_true, List.mem_cons] at h
        rcases h with h | h
        · exact Or.inl (h ▸ List.mem_cons_self _ _)
        · rcases ih h with h2 | ⟨x, hx, hbx⟩
          · exact Or.inl (List.mem_cons_of_mem _ h2)
          · exact Or.inr ⟨x, List.mem_cons_of_mem _ hx, hbx⟩

/-- Arms other than the targeted one are untouched, position by position. -/
lemma updateFirst_get_of_ne (arms : List ArmStats) (armId : String) (r : ℤ)
    (i : ℕ) (hi : i < arms.length)
    (hi2 : i < (updateFirst arms armId r).length)
    (hne : (arms.get ⟨i, hi⟩).armId ≠ armId) :
    (updateFirst arms armId r).get ⟨i, hi2⟩ = arms.get ⟨i, hi⟩ := by
  induction arms generalizing i with
  | nil => cases hi
  | cons a rest ih =>
      by_cases ha : a.armId = armId
      · cases i with
        | zero => exact absurd ha (by simpa using hne)
        | succ j =>
            have hb : (a.armId == armId) = true := by simpa using ha
            simp [updateFirst, hb]
      · have hb : (a.armId == armId) = false := by simpa using ha
        cases i with
        | zero => simp [updateFirst, hb]
        | succ j =>
            have hj : j < rest.length := by
              simpa using Nat.lt_of_succ_lt_succ hi
            have hj2 : j < (updateFirst rest armId r).length := by
              rw [updateFirst_length]; exact hj
            have hih := ih j hj hj2 (by simpa using hne)
            simpa [updateFirst, hb] using hih

/-! Reconciliation: structure of `missingArms`. -/

lemma any_armId_eq (arms arms2 : List ArmStats) (x : String)
    (h : arms.map (fun s => s.armId) = arms2.map (fun s => s.armId)) :
    arms.any (fun s => s.armId == x) = arms2.any (fun s => s.armId == x) := by
  have key : ∀ l : List ArmStats, l.any (fun s => s.armId == x) =
      (l.map (fun s => s.armId)).any (fun y => y == x) := by
    intro l
    induction l with
    | nil => rfl
    | cons a t ih => simp [List.any_cons, ih]
  rw [key arms, key arms2, h]

lemma missingArms_congr (arms arms2 : List ArmStats)
    (h : arms.map (fun s => s.armId) = arms2.map (fun s => s.armId)) :
    missingArms arms = missingArms arms2 := by
  unfold missingArms
  exact List.filter_congr (fun a _ => by rw [any_armId_eq arms arms2 _ h])

lemma missingArms_nil_of_superset (arms : List ArmStats)
    (h : ∀ a ∈ ARMS, arms.any (fun s => s.armId == a.armId) = true) :
    missingArms arms = [] := by
  unfold missingArms
  rw [List.filter_eq_nil_iff]
  intro a ha
  simp [h a ha]

lemma missingArms_append_defaults (arms : List ArmStats) :
    missingArms (arms ++ (missingArms arms).map mkDefaultStats) = [] := by
  apply missingArms_nil_of_superset
  intro a ha
  by_cases h : arms.any (fun s => s.armId == a.armId) = true
  · rw [List.any_append, h]; rfl
  · have hmem : a ∈ missingArms arms := by
      unfold missingArms
      rw [List.mem_filter]
      exact ⟨ha, by simp [h]⟩
    rw [List.any_append, Bool.or_eq_true]
    right
    rw [List.any_eq_true]
    exact ⟨mkDefaultStats a, List.mem_map_of_mem _ hmem, by simp [mkDefaultStats]⟩

/-! Loading: structure of `getOrCreateBanditState`. -/

/-- A load of a state that already contains every registry arm is a pure
read: same state back, collection untouched. -/
lemma getOrCreate_synced {store : Store} {c : String} {st : BanditState}
    (hf : findState store c = some st) (hm : missingArms st.arms = []) :
    getOrCreateBanditState store c = (st, store) := by
  simp [getOrCreateBanditState, hf, hm]

/-- A load of an existing state appends exactly the missing registry arms
at the neutral prior, persisting only when something was appended. -/
lemma getOrCreate_found {store : Store} {c : String} {st : BanditState}
    (hf : findState store c = some st) :
    getOrCreateBanditState store c =
      if missingArms st.arms = [] then (st, store)
      else
        (⟨st.chat, st.arms ++ (missingArms st.arms).map mkDefaultStats⟩,
          saveState store
            ⟨st.chat, st.arms ++ (missingArms st.arms).map mkDefaultStats⟩) := by
  by_cases hm : missingArms st.arms = []
  · simp [getOrCreateBanditState, hf, hm]
  · have : ((missingArms st.arms).map mkDefaultStats).isEmpty = false := by
      rw [List.isEmpty_eq_false_iff_exists_mem]
      rcases List.exists_mem_of_ne_nil _ hm with ⟨a, ha⟩
      exact ⟨mkDefaultStats a, List.mem_map_of_mem _ ha⟩
    simp [getOrCreateBanditState, hf, hm, this]

/-- A load for a chat with no stored state creates and saves the default
document. -/
lemma getOrCreate_fresh {store : Store} {c : String}
    (hf : findState store c = none) :
    getOrCreateBanditState store c =
      (⟨c, defaultArms⟩, saveState store ⟨c, defaultArms⟩) := by
  simp [getOrCreateBanditState, hf]

/-- The state a load returns is a member of the collection it returns. -/
lemma getOrCreate_fst_mem (store : Store) (c : String) :
    (getOrCreateBanditState store c).1 ∈ (getOrCreateBanditState store c).2 := by
  match hf : findState store c with
  | none =>
      rw [getOrCreate_fresh hf]
      exact self_mem_saveState _ _
  | some st =>
      rw [getOrCreate_found hf]
      by_cases hm : missingArms st.arms = []
      · simpa [hm] using findState_mem hf
      · simp only [hm, if_neg, not_false_eq_true]
        exact self_mem_saveState _ _

/-- The collection effect of `chooseArm` is exactly that of the load. -/
lemma chooseArm_snd (store : Store) (c stage : String)
    (sampler : ℕ → ℕ → ℕ → ℚ) :
    (chooseArm store c stage sampler).2 =
      (getOrCreateBanditState store c).2 := rfl

/-- The collection effect of `getBanditStats` is exactly that of the load. -/
lemma getBanditStats_snd (store : Store) (c : String) :
    (getBanditStats store c).2 = (getOrCreateBanditState store c).2 := rfl

/-! Invariant preservation. -/

lemma armInv_default (a : ArmConfig) : ArmInv (mkDefaultStats a) := by
  simp [ArmInv, mkDefaultStats]

lemma armInv_bump {a : ArmStats} (h : ArmInv a) (r : ℤ) :
    ArmInv (bump a r) := by
  obtain ⟨h1, h2, _, h4⟩ := h
  by_cases hr : r = 1 <;>
    refine ⟨?_, ?_, Nat.zero_le _, ?_⟩ <;>
      simp only [bump, hr, if_true, if_false, reduceIte] <;> omega

lemma storeInv_saveState {store : Store} {st : BanditState}
    (hs : StoreInv store) (hst : ∀ a ∈ st.arms, ArmInv a) :
    StoreInv (saveState store st) := by
  intro s hmem a ha
  rcases mem_saveState hmem with h | h
  · exact hst a (h ▸ ha)
  · exact hs s h a ha

lemma armsInv_getOrCreate {store : Store} (hs : StoreInv store)
    (c : String) :
    ∀ a ∈ (getOrCreateBanditState store c).1.arms, ArmInv a := by
  match hf : findState store c with
  | none =>
      rw [getOrCreate_fresh hf]
      intro a ha
      rcases List.mem_map.mp ha with ⟨cfg, _, rfl⟩
      exact armInv_default cfg
  | some st =>
      rw [getOrCreate_found hf]
      by_cases hm : missingArms st.arms = []
      · simp only [hm, if_true, reduceIte]
        exact hs st (findState_mem hf)
      · simp only [hm, if_neg, not_false_eq_true]
        intro a ha
        rcases List.mem_append.mp ha with h | h
        · exact hs st (findState_mem hf) a h
        · rcases List.mem_map.mp h with ⟨cfg, _, rfl⟩
          exact armInv_default cfg

lemma storeInv_getOrCreate {store : Store} (hs : StoreInv store)
    (c : String) : StoreInv (getOrCreateBanditState store c).2 := by
  match hf : findState store c with
  | none =>
      rw [getOrCreate_fresh hf]
      refine storeInv_saveState hs ?_
      intro a ha
      rcases List.mem_map.mp ha with ⟨cfg, _, rfl⟩
      exact armInv_default cfg
  | some st =>
      rw [getOrCreate_found hf]
      by_cases hm : missingArms st.arms = []
      · simpa [hm] using hs
      · simp only [hm, if_neg, not_false_eq_true]
        refine storeInv_saveState hs ?_
        intro a ha
        rcases List.mem_append.mp ha with h | h
        · exact hs st (findState_mem hf) a h
        · rcases List.mem_map.mp h with ⟨cfg, _, rfl⟩
          exact armInv_default cfg

/-- After a load, the previously stored arms sit unchanged at the front of
the stored state, followed only by fresh neutral-prior entries. -/
lemma getOrCreate_preserves {store : Store} {cid : String} {st : BanditState}
    (hf : findState store cid = some st) :
    ∃ rest : List ArmStats,
      findState (getOrCreateBanditState store cid).2 cid =
        some ⟨cid, st.arms ++ rest⟩ ∧
      ∀ b ∈ rest, b.alpha = 1 ∧ b.beta = 1 ∧ b.pulls = 0 := by
  obtain ⟨ch, arms⟩ := st
  have hchat : ch = cid := findState_chat hf
  subst hchat
  rw [getOrCreate_found hf]
  by_cases hm : missingArms arms = []
  · refine ⟨[], ?_, by simp⟩
    simpa [hm] using hf
  · refine ⟨(missingArms arms).map mkDefaultStats, ?_, ?_⟩
    · simp only [hm, if_neg, not_false_eq_true]
      rw [findState_saveState]
      simp
    · intro b hb
      rcases List.mem_map.mp hb with ⟨cfg, _, rfl⟩
      simp [mkDefaultStats]

/-- A load for a chat without a stored state leaves the default document
in the collection. -/
lemma getOrCreate_fresh_find {store : Store} {cid : String}
    (hf : findState store cid = none) :
    findState (getOrCreateBanditState store cid).2 cid =
      some ⟨cid, defaultArms⟩ := by
  rw [getOrCreate_fresh hf, findState_saveState]
  simp

/-- Evaluation of the chatId-only path of `submitFeedback` on a valid
request against a registry-synced state containing the requested arm. -/
lemma submitFeedback_chatOnly_step (db : Db) (armIdReq : String)
    (reward : ℤ) (cid : String) (arms : List ArmStats) (a : ArmStats)
    (hchat : cid ∈ db.chats) (hcid : cid ≠ "") (harm2 : armIdReq ≠ "")
    (hr : reward = 0 ∨ reward = 1)
    (hstate : findState db.bandit cid = some ⟨cid, arms⟩)
    (hsync : missingArms arms = [])
    (hfind : arms.find? (fun s => s.armId == armIdReq) = some a) :
    submitFeedback db armIdReq reward none (some cid) =
      (FeedbackResult.success armIdReq reward cid (some (bump a reward)),
        { db with bandit :=
            saveState db.bandit ⟨cid, updateFirst arms armIdReq reward⟩ }) := by
  have hb1 : (armIdReq == "") = false := by simpa using harm2
  have hb2 : (reward != 0 && reward != 1) = false := by
    rcases hr with rfl | rfl <;> simp
  have hb3 : (cid == "") = false := by simpa using hcid
  have hb4 : db.chats.contains cid = true := by simpa using hchat
  have hupd : updateArm db.bandit cid armIdReq reward =
      (some (bump a reward),
        saveState db.bandit ⟨cid, updateFirst arms armIdReq reward⟩) := by
    unfold updateArm
    rw [getOrCreate_synced hstate hsync]
    simp [hfind]
  simp [submitFeedback, hb1, hb2, hb3, hb4, hupd, hchat]

/-! The head of the stable descending-by-sample sort (the JS comparator
`(a, b) => b.sample - a.sample` is stable for ties) is the first maximal
element of the unsorted list. -/

lemma ledesc_trans {α : Type} (a b c : α × ℚ) (hab : ledesc a b = true)
    (hbc : ledesc b c = true) : ledesc a c = true := by
  simp only [ledesc, decide_eq_true_eq] at *
  exact hbc.trans hab

lemma ledesc_total {α : Type} (a b : α × ℚ) :
    (ledesc a b || ledesc b a) = true := by
  simp only [ledesc, Bool.or_eq_true, decide_eq_true_eq]
  exact le_total b.2 a.2

lemma head_mergeSort_first_max {α : Type} (l : List (α × ℚ)) (hl : l ≠ []) :
    ∃ (i : ℕ) (hi : i < l.length),
      (l.mergeSort ledesc).head? = some (l.get ⟨i, hi⟩) ∧
      (∀ (j : ℕ) (hj : j < l.length),
        (l.get ⟨j, hj⟩).2 ≤ (l.get ⟨i, hi⟩).2) ∧
      (∀ (j : ℕ) (hj : j < l.length), j < i →
        (l.get ⟨j, hj⟩).2 < (l.get ⟨i, hi⟩).2) := by
  induction l with
  | nil => exact absurd rfl hl
  | cons a t ih =>
      obtain ⟨l1, l2, h1, h2, h3⟩ :=
        List.mergeSort_cons ledesc_trans ledesc_total a t
      cases l1 with
      | nil =>
          simp only [List.nil_append] at h1 h2
          refine ⟨0, by simp, ?_, ?_, ?_⟩
          · rw [h1]; rfl
          · intro j hj
            cases j with
            | zero => exact le_refl _
            | succ k =>
                have hk : k < t.length := by simpa using hj
                have hmem : t.get ⟨k, hk⟩ ∈ l2 := by
                  have hperm : (t.mergeSort ledesc).Perm t :=
                    List.mergeSort_perm t ledesc
                  rw [h2] at hperm
                  exact hperm.mem_iff.mpr (t.get_mem k hk)
                have hsorted :=
                  List.sorted_mergeSort ledesc_trans ledesc_total (a :: t)
                rw [h1] at hsorted
                have := (List.pairwise_cons.mp hsorted).1 _ hmem
                simpa [ledesc] using this
          · intro j hj hj0
            exact absurd hj0 (Nat.not_lt_zero j)
      | cons c l1t =>
          have hne : t ≠ [] := by
            intro h0
            rw [h0, List.mergeSort_nil] at h2
            exact List.cons_ne_nil _ _ h2.symm
          obtain ⟨i, hi, hhead, hmax, hstrict⟩ := ih hne
          have hcget : t.get ⟨i, hi⟩ = c := by
            have hh : (t.mergeSort ledesc).head? = some c := by
              rw [h2]; rfl
            rw [hhead] at hh
            exact (Option.some_inj.mp hh)
          have hac : a.2 < c.2 := by
            have := h3 c (List.mem_cons_self _ _)
            simp only [Bool.not_eq_true', ledesc, decide_eq_false_iff_not] at this
            exact lt_of_not_le this
          refine ⟨i + 1, Nat.succ_lt_succ hi, ?_, ?_, ?_⟩
          · rw [h1]
            simpa using hcget.symm
          · intro j hj
            cases j with
            | zero =>
                have hcget2 : t[i] = c := by simpa using hcget
                simp only [List.get_eq_getElem, List.getElem_cons_zero,
                  List.getElem_cons_succ, hcget2]
                exact le_of_lt hac
            | succ k =>
                have hk : k < t.length := by simpa using hj
                simpa using hmax k hk
          · intro j hj hlt
            cases j with
            | zero =>
                have hcget2 : t[i] = c := by simpa using hcget
                simp only [List.get_eq_getElem, List.getElem_cons_zero,
                  List.getElem_cons_succ, hcget2]
                exact hac
            | succ k =>
                have hk : k < t.length := by simpa using hj
                have hki : k < i := Nat.lt_of_succ_lt_succ hlt
                simpa using hstrict k hk hki

/-! The sampler: every value the rejection method can return is positive,
so every Beta draw lies strictly inside the unit interval. -/

lemma gammaInner_pos {c : ℝ} {u : ℕ → ℝ} {fuel k : ℕ} {x v : ℝ} {k2 : ℕ}
    (h : gammaInner c u fuel k = some (x, v, k2)) : 0 < v := by
  induction fuel generalizing k with
  | zero => simp [gammaInner] at h
  | succ n ih =>
      simp only [gammaInner] at h
      split at h
      · exact ih h
      · rename_i hv
        obtain ⟨rfl, rfl, rfl⟩ :
            randn (u k) (u (k + 1)) = x ∧
              1 + c * randn (u k) (u (k + 1)) = v ∧ k + 2 = k2 := by
          injection h with h1
          injection h1 with ha hb
          injection hb with hb hc
          exact ⟨ha, hb, hc⟩
        exact lt_of_not_le hv

lemma gammaLoop_pos {d c : ℝ} (hd : 0 < d) {u : ℕ → ℝ}
    {innerFuel fuel k : ℕ} {g : ℝ} {k2 : ℕ}
    (h : gammaLoop d c u innerFuel fuel k = some (g, k2)) : 0 < g := by
  induction fuel generalizing k with
  | zero => simp [gammaLoop] at h
  | succ n ih =>
      cases hin : gammaInner c u innerFuel k with
      | none => simp [gammaLoop, hin] at h
      | some xvk =>
          obtain ⟨x, v0, k1⟩ := xvk
          have hv0 : 0 < v0 := gammaInner_pos hin
          have hcube : 0 < d * (v0 * v0 * v0) :=
            mul_pos hd (mul_pos (mul_pos hv0 hv0) hv0)
          simp only [gammaLoop, hin] at h
          split at h
          · simp only [Option.some.injEq, Prod.mk.injEq] at h
            exact h.1 ▸ hcube
          · split at h
            · simp only [Option.some.injEq, Prod.mk.injEq] at h
              exact h.1 ▸ hcube
            · exact ih h

lemma sampleGamma_pos {u : ℕ → ℝ} (hu : ∀ n, 0 < u n) :
    ∀ {fuel : ℕ} {shape : ℝ} {k : ℕ} {g : ℝ} {k2 : ℕ},
      sampleGamma u fuel shape k = some (g, k2) → 0 < g := by
  intro fuel
  induction fuel with
  | zero => intro shape k g k2 h; simp [sampleGamma] at h
  | succ n ih =>
      intro shape k g k2 h
      simp only [sampleGamma] at h
      split at h
      · cases hg : sampleGamma u n (shape + 1) k with
        | none => rw [hg] at h; simp at h
        | some p =>
            obtain ⟨g1, k1⟩ := p
            rw [hg] at h
            have h1 : 0 < g1 := ih hg
            have h2 : 0 < (u k1) ^ (1 / shape) :=
              Real.rpow_pos_of_pos (hu k1) _
            obtain ⟨rfl, rfl⟩ : g1 * (u k1) ^ (1 / shape) = g ∧ k1 + 1 = k2 := by
              injection h with h3
              injection h3 with ha hb
              exact ⟨ha, hb⟩
            exact mul_pos h1 h2
      · rename_i hs
        have hd : 0 < shape - 1 / 3 := by
          push_neg at hs
          linarith
        exact gammaLoop_pos hd h

/-! Structure of the per-candidate sampling loop. -/

lemma armSamplesAux_length (state : BanditState)
    (sampler : ℕ → ℕ → ℕ → ℚ) (i : ℕ) (cs : List ArmConfig) :
    (armSamplesAux state sampler i cs).length = cs.length := by
  induction cs generalizing i with
  | nil => rfl
  | cons c t ih => simp [armSamplesAux, ih]

lemma armSamplesAux_get (state : BanditState) (sampler : ℕ → ℕ → ℕ → ℚ)
    (i : ℕ) (cs : List ArmConfig) (j : ℕ) (hj : j < cs.length)
    (hj2 : j < (armSamplesAux state sampler i cs).length) :
    (armSamplesAux state sampler i cs).get ⟨j, hj2⟩ =
      (cs.get ⟨j, hj⟩,
        sampler (i + j) (armStatsFor state (cs.get ⟨j, hj⟩).armId).alpha
          (armStatsFor state (cs.get ⟨j, hj⟩).armId).beta) := by
  induction cs generalizing i j with
  | nil => cases hj
  | cons c t ih =>
      cases j with
      | zero => simp [armSamplesAux]
      | succ m =>
          have hm : m < t.length := by simpa using hj
          have hm2 : m < (armSamplesAux state sampler (i + 1) t).length := by
            rw [armSamplesAux_length]; exact hm
          have hih := ih (i + 1) m hm hm2
          have harith : i + 1 + m = i + (m + 1) := by omega
          simpa [armSamplesAux, harith] using hih

/-! The default arms and iterated reward application. -/

lemma find?_map_mkDefault (armId : String) (l : List ArmConfig)
    (h : armId ∈ l.map (fun a => a.armId)) :
    (l.map mkDefaultStats).find? (fun s => s.armId == armId) =
      some { armId := armId, alpha := 1, beta := 1, pulls := 0 } := by
  induction l with
  | nil => simp at h
  | cons a t ih =>
      by_cases ha : a.armId = armId
      · simp [List.find?, mkDefaultStats, ha]
      · have hb : (a.armId == armId) = false := by simpa using ha
        have ht : armId ∈ t.map (fun a => a.armId) := by
          rcases List.mem_map.mp h with ⟨x, hx, hxa⟩
          rcases List.mem_cons.mp hx with rfl | hx2
          · exact absurd hxa ha
          · exact List.mem_map.mpr ⟨x, hx2, hxa⟩
        simpa [List.find?, mkDefaultStats, hb] using ih ht

lemma find?_defaultArms {armId : String}
    (h : armId ∈ ARMS.map (fun a => a.armId)) :
    defaultArms.find? (fun s => s.armId == armId) =
      some { armId := armId, alpha := 1, beta := 1, pulls := 0 } :=
  find?_map_mkDefault armId ARMS h

lemma bump_statsAfter (armId : String) (r : ℤ) (k : ℕ) :
    bump (statsAfter armId r k) r = statsAfter armId r (k + 1) := by
  by_cases hr : r = 1 <;> simp [bump, statsAfter, hr] <;> omega

lemma statsAfter_zero (armId : String) (r : ℤ) :
    statsAfter armId r 0 = { armId := armId, alpha := 1, beta := 1, pulls := 0 } := by
  simp [statsAfter]

lemma find?_updateFirstPow_default (armId : String) (r : ℤ) (k : ℕ)
    (h : armId ∈ ARMS.map (fun a => a.armId)) :
    (updateFirstPow defaultArms armId r k).find? (fun s => s.armId == armId) =
      some (statsAfter armId r k) := by
  induction k with
  | zero => rw [updateFirstPow, statsAfter_zero]; exact find?_defaultArms h
  | succ m ih =>
      rw [updateFirstPow, find?_updateFirst, ih]
      simp [bump_statsAfter]

lemma updateFirstPow_armIds (arms : List ArmStats) (armId : String)
    (r : ℤ) (k : ℕ) :
    (updateFirstPow arms armId r k).map (fun s => s.armId) =
      arms.map (fun s => s.armId) := by
  induction k with
  | zero => rfl
  | succ m ih => rw [updateFirstPow, updateFirst_armIds, ih]

lemma missingArms_defaultArms : missingArms defaultArms = [] := by decide

lemma missingArms_updateFirstPow_default (armId : String) (r : ℤ) (k : ℕ) :
    missingArms (updateFirstPow defaultArms armId r k) = [] := by
  rw [missingArms_congr _ defaultArms (updateFirstPow_armIds _ _ _ _)]
  exact missingArms_defaultArms

lemma storeInv_updateArm {store : Store} (hs : StoreInv store)
    (c armId : String) (r : ℤ) :
    StoreInv (updateArm store c armId r).2 := by
  have hs1 := storeInv_getOrCreate hs c
  have harms := armsInv_getOrCreate hs c
  unfold updateArm
  cases hfind : (getOrCreateBanditState store c).1.arms.find?
      (fun a => a.armId == armId) with
  | none => simpa [hfind] using hs1
  | some a =>
      simp only [hfind]
      refine storeInv_saveState hs1 ?_
      intro b hb
      rcases mem_updateFirst hb with h | ⟨x, hx, rfl⟩
      · exact harms b h
      · exact armInv_bump (harms x hx) r

/-! Claim theorems. -/

/-- C1: a fresh `applyReward` call with reward in 0/1 whose arm is present
in the loaded state increments that arm's `pulls` by exactly 1, increments
`alpha` by 1 when the reward is 1 and otherwise `beta` by 1, persists the
updated document, and returns the post-update statistics; in particular on
a fresh conversation with uniform priors, reward 1 to the chosen arm
yields alpha 2 / beta 1 / pulls 1 while the other arm stays at
alpha 1 / beta 1 / pulls 0. -/
theorem updateArm_applyReward (store : Store) (cid armId : String)
    (reward : ℤ) (a : ArmStats)
    (hfind : (getOrCreateBanditState store cid).1.arms.find?
      (fun s => s.armId == armId) = some a)
    (hr : reward = 0 ∨ reward = 1) :
    (updateArm store cid armId reward).1 = some (bump a reward) ∧
    (bump a reward).pulls = a.pulls + 1 ∧
    (reward = 1 →
      (bump a reward).alpha = a.alpha + 1 ∧ (bump a reward).beta = a.beta) ∧
    (reward = 0 →
      (bump a reward).beta = a.beta + 1 ∧ (bump a reward).alpha = a.alpha) ∧
    findState (updateArm store cid armId reward).2
        (getOrCreateBanditState store cid).1.chat =
      some ⟨(getOrCreateBanditState store cid).1.chat,
        updateFirst (getOrCreateBanditState store cid).1.arms armId reward⟩ ∧
    updateArm [] "c1" "unified_base" 1 =
      (some { armId := "unified_base", alpha := 2, beta := 1, pulls := 1 },
        [⟨"c1", [{ armId := "unified_base", alpha := 2, beta := 1, pulls := 1 },
          { armId := "unified_strict_json", alpha := 1, beta := 1,
            pulls := 0 }]⟩]) := by
  have h1 : updateArm store cid armId reward =
      (some (bump a reward),
        saveState (getOrCreateBanditState store cid).2
          ⟨(getOrCreateBanditState store cid).1.chat,
            updateFirst (getOrCreateBanditState store cid).1.arms armId
              reward⟩) := by
    unfold updateArm
    simp [hfind]
  refine ⟨by rw [h1], rfl, ?_, ?_, ?_, by decide⟩
  · rintro rfl
    simp [bump]
  · rintro rfl
    norm_num [bump]
  · rw [h1, findState_saveState]
    simp

/-- Witness for C1 on the fresh-conversation scenario. -/
theorem updateArm_applyReward_witness :
    ((getOrCreateBanditState [] "c1").1.arms.find?
        (fun s => s.armId == "unified_base") =
      some { armId := "unified_base", alpha := 1, beta := 1, pulls := 0 }) ∧
    ((1 : ℤ) = 0 ∨ (1 : ℤ) = 1) ∧
    (updateArm [] "c1" "unified_base" 1).1 =
      some (bump ⟨"unified_base", 1, 1, 0⟩ 1) :=
  ⟨by decide, Or.inr rfl,
    (updateArm_applyReward [] "c1" "unified_base" 1
      { armId := "unified_base", alpha := 1, beta := 1, pulls := 0 }
      (by decide) (Or.inr rfl)).1⟩

/-- C2: every collection reachable by the bandit service's operations
satisfies, for each arm of each stored state, alpha at least 1, beta at
least 1, pulls nonnegative, and pulls equal to (alpha - 1) + (beta - 1). -/
theorem reachable_storeInv (store : Store) (h : Reachable store) :
    StoreInv store := by
  induction h with
  | init => intro st hst a ha; exact absurd hst (List.not_mem_nil st)
  | load s c hr ih => exact storeInv_getOrCreate ih c
  | choose s c stage sampler hr ih =>
      rw [chooseArm_snd]
      exact storeInv_getOrCreate ih c
  | update s c armId r hr ih => exact storeInv_updateArm ih c armId r
  | stats s c hr ih =>
      rw [getBanditStats_snd]
      exact storeInv_getOrCreate ih c

/-- Witness for C2 at a concrete reachable collection. -/
theorem reachable_storeInv_witness :
    StoreInv ((updateArm [] "c1" "unified_base" 1).2) :=
  reachable_storeInv _ (Reachable.update [] "c1" "unified_base" 1 Reachable.init)

/-- C3: submitting feedback again for a response whose feedback is already
set returns `already_rated` with the previously recorded feedback, and the
whole database — in particular the targeted arm's statistics — is
unchanged. -/
theorem submitFeedback_alreadyRated (db : Db) (mid : String) (msg : Message)
    (armIdReq : String) (reward : ℤ) (fb : String)
    (hm : findMessage db.messages mid = some msg)
    (hs : msg.sender = "chatbot")
    (hf : msg.feedback = some fb)
    (hc : msg.chat ∈ db.chats)
    (ha : armIdReq ≠ "")
    (hr : reward = 0 ∨ reward = 1) :
    (submitFeedback db armIdReq reward (some mid) none).2 = db ∧
    ∃ armId : String,
      (submitFeedback db armIdReq reward (some mid) none).1 =
        FeedbackResult.alreadyRated armId reward fb := by
  have hb1 : (armIdReq == "") = false := by simpa using ha
  have hb2 : (reward != 0 && reward != 1) = false := by
    rcases hr with rfl | rfl <;> simp
  have hb3 : (msg.sender != "chatbot") = false := by simp [hs]
  have hb4 : db.chats.contains msg.chat = true := by simpa using hc
  constructor
  · simp [submitFeedback, hb1, hb2, hm, hb3, hb4, hf, hc]
  · cases harm : msg.armId with
    | none =>
        exact ⟨armIdReq,
          by simp [submitFeedback, hb1, hb2, hm, hb3, hb4, hf, harm, hc]⟩
    | some a =>
        by_cases hae : a = ""
        · exact ⟨armIdReq,
            by simp [submitFeedback, hb1, hb2, hm, hb3, hb4, hf, harm, hae, hc]⟩
        · have hbe : (a == "") = false := by simpa using hae
          exact ⟨a,
            by simp [submitFeedback, hb1, hb2, hm, hb3, hb4, hf, harm, hbe, hc]⟩

/-- Witness for C3 on a message already marked with positive feedback. -/
theorem submitFeedback_alreadyRated_witness :
    (findMessage [⟨"m1", "c1", "chatbot", some "unified_base", some "up"⟩]
        "m1" =
      some ⟨"m1", "c1", "chatbot", some "unified_base", some "up"⟩) ∧
    (submitFeedback
        ⟨[⟨"m1", "c1", "chatbot", some "unified_base", some "up"⟩],
          ["c1"], []⟩ "unified_base" 0 (some "m1") none).2 =
      ⟨[⟨"m1", "c1", "chatbot", some "unified_base", some "up"⟩],
        ["c1"], []⟩ :=
  ⟨by decide,
    (submitFeedback_alreadyRated
      ⟨[⟨"m1", "c1", "chatbot", some "unified_base", some "up"⟩], ["c1"], []⟩
      "m1" ⟨"m1", "c1", "chatbot", some "unified_base", some "up"⟩
      "unified_base" 0 "up" (by decide) rfl rfl (by decide) (by decide)
      (Or.inl rfl)).1⟩

/-- C4: a feedback submission that carries a `chatId` but no `messageId`
skips the write-once gate entirely: the `already_rated` outcome is
impossible on this path, and N identical submissions against the same
conversation and arm are each applied, leaving that arm with pulls = N and
alpha (reward 1) or beta (reward 0) raised by N. -/
theorem submitFeedback_chatOnly_counts (db : Db) (armIdReq : String)
    (reward : ℤ) (cid : String)
    (hchat : cid ∈ db.chats) (hcid : cid ≠ "")
    (hstate : findState db.bandit cid = some ⟨cid, defaultArms⟩)
    (harm : armIdReq ∈ ARMS.map (fun a => a.armId)) (harm2 : armIdReq ≠ "")
    (hr : reward = 0 ∨ reward = 1) :
    (∀ (db2 : Db) (a : String) (r : ℤ) (c : Option String) (aa : String)
      (rr : ℤ) (fb : String),
      (submitFeedback db2 a r none c).1 ≠
        FeedbackResult.alreadyRated aa rr fb) ∧
    ∀ N : ℕ, ∃ st : BanditState,
      findState (iterateFeedback armIdReq reward cid N db).bandit cid =
        some st ∧
      st.arms.find? (fun s => s.armId == armIdReq) =
        some (statsAfter armIdReq reward N) := by
  constructor
  · intro db2 a r c aa rr fb
    cases c with
    | none =>
        unfold submitFeedback
        split <;> simp
    | some c0 =>
        unfold submitFeedback
        split
        · simp
        · dsimp only
          split
          · simp
          · split <;> simp
  · have key : ∀ N : ℕ,
        (iterateFeedback armIdReq reward cid N db).chats = db.chats ∧
        findState (iterateFeedback armIdReq reward cid N db).bandit cid =
          some ⟨cid, updateFirstPow defaultArms armIdReq reward N⟩ := by
      intro N
      induction N with
      | zero => exact ⟨rfl, hstate⟩
      | succ n ihn =>
          obtain ⟨hchats, hfind⟩ := ihn
          have hchat2 : cid ∈ (iterateFeedback armIdReq reward cid n db).chats := by
            rw [hchats]; exact hchat
          have hsync := missingArms_updateFirstPow_default armIdReq reward n
          have hfindarm := find?_updateFirstPow_default armIdReq reward n harm
          have hstep := submitFeedback_chatOnly_step
            (iterateFeedback armIdReq reward cid n db) armIdReq reward cid
            (updateFirstPow defaultArms armIdReq reward n)
            (statsAfter armIdReq reward n) hchat2 hcid harm2 hr hfind hsync
            hfindarm
          constructor
          · rw [iterateFeedback, hstep]
            exact hchats
          · rw [iterateFeedback, hstep]
            show findState (saveState _ _) cid = _
            rw [findState_saveState]
            simp [updateFirstPow]
    intro N
    exact ⟨⟨cid, updateFirstPow defaultArms armIdReq reward N⟩, (key N).2,
      find?_updateFirstPow_default armIdReq reward N harm⟩

/-- Witness for C4 on a fresh conversation, positive rewards. -/
theorem submitFeedback_chatOnly_counts_witness :
    ("c1" ∈ ["c1"]) ∧
    (findState [⟨"c1", defaultArms⟩] "c1" = some ⟨"c1", defaultArms⟩) ∧
    ("unified_base" ∈ ARMS.map (fun a => a.armId)) ∧
    ∀ N : ℕ, ∃ st : BanditState,
      findState (iterateFeedback "unified_base" 1 "c1" N
          ⟨[], ["c1"], [⟨"c1", defaultArms⟩]⟩).bandit "c1" = some st ∧
      st.arms.find? (fun s => s.armId == "unified_base") =
        some (statsAfter "unified_base" 1 N) :=
  ⟨by decide, by decide, by decide,
    (submitFeedback_chatOnly_counts ⟨[], ["c1"], [⟨"c1", defaultArms⟩]⟩
      "unified_base" 1 "c1" (by decide) (by decide) (by decide) (by decide)
      (by decide) (Or.inr rfl)).2⟩

/-- C5 counterexample: as stated the claim fails — an `applyReward` call
with an arm unknown to both registry and state, on a conversation with no
stored state yet, does write a document (the lazy creation of the load),
even though it returns null and changes no arm statistics. -/
theorem updateArm_unknownArm_counterexample :
    findState ([] : Store) "c1" = none ∧
    (updateArm [] "c1" "no_such_arm" 1).1 = none ∧
    (updateArm [] "c1" "no_such_arm" 1).2 ≠ ([] : Store) := by decide

/-- C5 (amended): an `applyReward` call whose arm is absent from both the
stored state and the registry returns null and — provided the
conversation's state exists and already contains every registry arm — the
collection is completely untouched; the only writes that can ever occur on
this path are the lazy creation/reconciliation of the load itself. -/
theorem updateArm_unknownArm (store : Store) (cid armId : String)
    (reward : ℤ) (st : BanditState)
    (hf : findState store cid = some st)
    (hsync : missingArms st.arms = [])
    (hno : st.arms.find? (fun s => s.armId == armId) = none) :
    updateArm store cid armId reward = (none, store) ∧
    armId ∉ ARMS.map (fun a => a.armId) := by
  constructor
  · unfold updateArm
    rw [getOrCreate_synced hf hsync]
    simp [hno]
  · intro hmem
    rcases List.mem_map.mp hmem with ⟨cfg, hcfg, rfl⟩
    have hany : st.arms.any (fun s => s.armId == cfg.armId) = true := by
      by_contra hno2
      have hcmem : cfg ∈ missingArms st.arms := by
        unfold missingArms
        rw [List.mem_filter]
        exact ⟨hcfg, by simpa using hno2⟩
      rw [hsync] at hcmem
      exact absurd hcmem (List.not_mem_nil cfg)
    rcases List.any_eq_true.mp hany with ⟨s, hsmem, hseq⟩
    exact (List.find?_eq_none.mp hno s hsmem) hseq

/-- Witness for the amended C5 on a synced state. -/
theorem updateArm_unknownArm_witness :
    (findState [⟨"c1", defaultArms⟩] "c1" = some ⟨"c1", defaultArms⟩) ∧
    (missingArms defaultArms = []) ∧
    updateArm [⟨"c1", defaultArms⟩] "c1" "no_such_arm" 1 =
      (none, [⟨"c1", defaultArms⟩]) :=
  ⟨by decide, by decide,
    (updateArm_unknownArm [⟨"c1", defaultArms⟩] "c1" "no_such_arm" 1
      ⟨"c1", defaultArms⟩ (by decide) (by decide) (by decide)).1⟩

/-- C7: loading a stored state that is missing registry arms appends
exactly those arms at the neutral prior, alters no existing arm (position
by position), is idempotent (a second load returns the same state and does
not write), and persists only when something was appended. -/
theorem getOrCreate_reconciliation (store : Store) (cid : String)
    (st : BanditState) (hf : findState store cid = some st) :
    (getOrCreateBanditState store cid).1.arms =
      st.arms ++ (missingArms st.arms).map mkDefaultStats ∧
    (∀ a ∈ missingArms st.arms,
      mkDefaultStats a =
        { armId := a.armId, alpha := 1, beta := 1, pulls := 0 }) ∧
    (∀ (i : ℕ) (hi : i < st.arms.length)
      (hi2 : i < (getOrCreateBanditState store cid).1.arms.length),
      (getOrCreateBanditState store cid).1.arms.get ⟨i, hi2⟩ =
        st.arms.get ⟨i, hi⟩) ∧
    getOrCreateBanditState (getOrCreateBanditState store cid).2 cid =
      ((getOrCreateBanditState store cid).1,
        (getOrCreateBanditState store cid).2) ∧
    (missingArms st.arms = [] →
      (getOrCreateBanditState store cid).2 = store) := by
  have hchat := findState_chat hf
  have harms : (getOrCreateBanditState store cid).1.arms =
      st.arms ++ (missingArms st.arms).map mkDefaultStats := by
    rw [getOrCreate_found hf]
    by_cases hm : missingArms st.arms = [] <;> simp [hm]
  refine ⟨harms, fun a _ => rfl, ?_, ?_, ?_⟩
  · intro i hi hi2
    simp only [List.get_eq_getElem]
    rw [List.getElem_of_eq harms hi2]
    exact List.getElem_append_left hi
  · by_cases hm : missingArms st.arms = []
    · rw [getOrCreate_synced hf hm]
      exact getOrCreate_synced hf hm
    · rw [getOrCreate_found hf]
      simp only [hm, if_neg, not_false_eq_true]
      have hf2 : findState
          (saveState store
            ⟨st.chat, st.arms ++ (missingArms st.arms).map mkDefaultStats⟩)
          cid =
          some ⟨st.chat,
            st.arms ++ (missingArms st.arms).map mkDefaultStats⟩ := by
        rw [findState_saveState]
        simp [hchat]
      exact getOrCreate_synced hf2 (missingArms_append_defaults st.arms)
  · intro hm
    rw [getOrCreate_synced hf hm]

/-- Witness for C7 on a state missing one registry arm. -/
theorem getOrCreate_reconciliation_witness :
    (findState [⟨"c1", [⟨"unified_base", 3, 2, 3⟩]⟩] "c1" =
      some ⟨"c1", [⟨"unified_base", 3, 2, 3⟩]⟩) ∧
    (getOrCreateBanditState [⟨"c1", [⟨"unified_base", 3, 2, 3⟩]⟩] "c1").1.arms =
      [⟨"unified_base", 3, 2, 3⟩] ++
        (missingArms [⟨"unified_base", 3, 2, 3⟩]).map mkDefaultStats :=
  ⟨by decide,
    (getOrCreate_reconciliation [⟨"c1", [⟨"unified_base", 3, 2, 3⟩]⟩] "c1"
      ⟨"c1", [⟨"unified_base", 3, 2, 3⟩]⟩ (by decide)).1⟩

/-- C6: `chooseArm` draws exactly one Beta(alpha, beta) posterior sample
per registry arm whose stage matches — in candidate order, on each arm's
stored (or fallback) statistics — and returns the full configuration
(armId, modelName, temperature, notes) of the arm with the strictly
largest sample; at ties the first maximal arm in registry iteration order
wins. -/
theorem chooseArm_thompson (store : Store) (cid stage : String)
    (sampler : ℕ → ℕ → ℕ → ℚ) (hne : candidateArms stage ≠ []) :
    ((armSamplesAux (getOrCreateBanditState store cid).1 sampler 0
        (candidateArms stage)).length = (candidateArms stage).length) ∧
    (∀ (j : ℕ) (hj : j < (candidateArms stage).length)
      (hj2 : j < (armSamplesAux (getOrCreateBanditState store cid).1
        sampler 0 (candidateArms stage)).length),
      (armSamplesAux (getOrCreateBanditState store cid).1 sampler 0
          (candidateArms stage)).get ⟨j, hj2⟩ =
        ((candidateArms stage).get ⟨j, hj⟩,
          drawnSample (getOrCreateBanditState store cid).1 sampler stage j
            hj)) ∧
    ∃ (i : ℕ) (hi : i < (candidateArms stage).length),
      (chooseArm store cid stage sampler).1 =
        some (toSelection ((candidateArms stage).get ⟨i, hi⟩)) ∧
      (∀ (j : ℕ) (hj : j < (candidateArms stage).length),
        drawnSample (getOrCreateBanditState store cid).1 sampler stage j
            hj ≤
          drawnSample (getOrCreateBanditState store cid).1 sampler stage i
            hi) ∧
      (∀ (j : ℕ) (hj : j < (candidateArms stage).length), j < i →
        drawnSample (getOrCreateBanditState store cid).1 sampler stage j
            hj <
          drawnSample (getOrCreateBanditState store cid).1 sampler stage i
            hi) := by
  have hlen : (armSamplesAux (getOrCreateBanditState store cid).1 sampler 0
      (candidateArms stage)).length = (candidateArms stage).length :=
    armSamplesAux_length _ _ _ _
  have hget : ∀ (j : ℕ) (hj : j < (candidateArms stage).length)
      (hj2 : j < (armSamplesAux (getOrCreateBanditState store cid).1
        sampler 0 (candidateArms stage)).length),
      (armSamplesAux (getOrCreateBanditState store cid).1 sampler 0
          (candidateArms stage)).get ⟨j, hj2⟩ =
        ((candidateArms stage).get ⟨j, hj⟩,
          drawnSample (getOrCreateBanditState store cid).1 sampler stage j
            hj) := by
    intro j hj hj2
    have hg := armSamplesAux_get (getOrCreateBanditState store cid).1
      sampler 0 (candidateArms stage) j hj hj2
    simpa [drawnSample] using hg
  refine ⟨hlen, hget, ?_⟩
  have hlne : armSamplesAux (getOrCreateBanditState store cid).1 sampler 0
      (candidateArms stage) ≠ [] := by
    intro h0
    rw [h0] at hlen
    exact hne (List.eq_nil_of_length_eq_zero hlen.symm)
  obtain ⟨i, hi, hhead, hmax, hstrict⟩ := head_mergeSort_first_max _ hlne
  have hi2 : i < (candidateArms stage).length := by rw [← hlen]; exact hi
  refine ⟨i, hi2, ?_, ?_, ?_⟩
  · have hres : (chooseArm store cid stage sampler).1 =
        chooseArmResult (getOrCreateBanditState store cid).1 stage
          sampler := rfl
    have hempty : (candidateArms stage).isEmpty = false := by
      simpa [List.isEmpty_iff] using hne
    rw [hres]
    unfold chooseArmResult
    rw [hget i hi2 hi] at hhead
    simp [hempty, hhead]
  · intro j hj
    have hj2 : j < (armSamplesAux (getOrCreateBanditState store cid).1
        sampler 0 (candidateArms stage)).length := by
      rw [hlen]; exact hj
    have hm := hmax j hj2
    rw [hget j hj hj2, hget i hi2 hi] at hm
    exact hm
  · intro j hj hlt
    have hj2 : j < (armSamplesAux (getOrCreateBanditState store cid).1
        sampler 0 (candidateArms stage)).length := by
      rw [hlen]; exact hj
    have hm := hstrict j hj2 hlt
    rw [hget j hj hj2, hget i hi2 hi] at hm
    exact hm

/-- Witness for C6 on a fresh conversation at the unified stage, the
second arm drawing the larger sample. -/
theorem chooseArm_thompson_witness :
    (candidateArms "unified" ≠ []) ∧
    ∃ (i : ℕ) (hi : i < (candidateArms "unified").length),
      (chooseArm [] "c1" "unified"
          (fun j _ _ => if j = 0 then 1/3 else 1/2)).1 =
        some (toSelection ((candidateArms "unified").get ⟨i, hi⟩)) :=
  ⟨by decide,
    match (chooseArm_thompson [] "c1" "unified"
        (fun j _ _ => if j = 0 then 1/3 else 1/2) (by decide)).2.2 with
    | ⟨i, hi, hsel, _, _⟩ => ⟨i, hi, hsel⟩⟩

/-- C8: a `chooseArm` call's only collection effect is the load's lazy
creation/reconciliation: previously stored arms keep their exact
statistics (selection never increments `pulls`), and anything the call
adds — including a freshly created document — carries only neutral-prior
entries. -/
theorem chooseArm_frame (store : Store) (cid stage : String)
    (sampler : ℕ → ℕ → ℕ → ℚ) :
    (chooseArm store cid stage sampler).2 =
      (getOrCreateBanditState store cid).2 ∧
    (∀ b ∈ defaultArms, b.alpha = 1 ∧ b.beta = 1 ∧ b.pulls = 0) ∧
    (findState store cid = none →
      findState (chooseArm store cid stage sampler).2 cid =
        some ⟨cid, defaultArms⟩) ∧
    ∀ st : BanditState, findState store cid = some st →
      ∃ rest : List ArmStats,
        findState (chooseArm store cid stage sampler).2 cid =
          some ⟨cid, st.arms ++ rest⟩ ∧
        ∀ b ∈ rest, b.alpha = 1 ∧ b.beta = 1 ∧ b.pulls = 0 := by
  refine ⟨chooseArm_snd store cid stage sampler, by decide, ?_, ?_⟩
  · intro hf
    rw [chooseArm_snd]
    exact getOrCreate_fresh_find hf
  · intro st hf
    rw [chooseArm_snd]
    exact getOrCreate_preserves hf

/-- Witness for C8 on an existing state with learnt statistics. -/
theorem chooseArm_frame_witness :
    (findState [⟨"c1", [⟨"unified_base", 3, 2, 3⟩]⟩] "c1" =
      some ⟨"c1", [⟨"unified_base", 3, 2, 3⟩]⟩) ∧
    ∃ rest : List ArmStats,
      findState (chooseArm [⟨"c1", [⟨"unified_base", 3, 2, 3⟩]⟩] "c1"
          "unified" (fun _ _ _ => 1/2)).2 "c1" =
        some ⟨"c1", [⟨"unified_base", 3, 2, 3⟩] ++ rest⟩ ∧
      ∀ b ∈ rest, b.alpha = 1 ∧ b.beta = 1 ∧ b.pulls = 0 :=
  ⟨by decide,
    (chooseArm_frame [⟨"c1", [⟨"unified_base", 3, 2, 3⟩]⟩] "c1" "unified"
      (fun _ _ _ => 1/2)).2.2.2 ⟨"c1", [⟨"unified_base", 3, 2, 3⟩]⟩
      (by decide)⟩

/-- C9: over the real-valued semantics, with the uniform source drawing
strictly inside the unit interval and alpha, beta at least 1, every
Beta(alpha, beta) draw the sampler returns lies strictly inside (0, 1);
the embedding is total (no error case exists — `none` only models the
fuel bound on the probabilistically-terminating rejection loop). -/
theorem sampleBeta_inOpenUnit (u : ℕ → ℝ) (fuel : ℕ) (alpha beta : ℝ)
    (k : ℕ) (halpha : 1 ≤ alpha) (hbeta : 1 ≤ beta)
    (hu : ∀ n, 0 < u n ∧ u n < 1) :
    inOpenUnit (sampleBeta u fuel alpha beta k) := by
  have hpos : ∀ n, 0 < u n := fun n => (hu n).1
  cases h1 : sampleGamma u fuel alpha k with
  | none => simp [sampleBeta, h1, inOpenUnit]
  | some p1 =>
      obtain ⟨ga, k1⟩ := p1
      cases h2 : sampleGamma u fuel beta k1 with
      | none => simp [sampleBeta, h1, h2, inOpenUnit]
      | some p2 =>
          obtain ⟨gb, k2⟩ := p2
          have hga : 0 < ga := sampleGamma_pos hpos h1
          have hgb : 0 < gb := sampleGamma_pos hpos h2
          have hr1 : 0 < ga / (ga + gb) := div_pos hga (add_pos hga hgb)
          have hr2 : ga / (ga + gb) < 1 := by
            rw [div_lt_one (add_pos hga hgb)]
            exact lt_add_of_pos_right ga hgb
          simp [sampleBeta, h1, h2, inOpenUnit, hr1, hr2]

/-- Witness for C9 at the uniform prior and a constant one-half stream. -/
theorem sampleBeta_inOpenUnit_witness :
    ((1 : ℝ) ≤ 1) ∧
    (∀ n : ℕ, 0 < (fun _ : ℕ => (1 : ℝ) / 2) n ∧
      (fun _ : ℕ => (1 : ℝ) / 2) n < 1) ∧
    inOpenUnit (sampleBeta (fun _ : ℕ => (1 : ℝ) / 2) 5 1 1 0) :=
  ⟨le_refl 1, fun n => by norm_num,
    sampleBeta_inOpenUnit (fun _ : ℕ => (1 : ℝ) / 2) 5 1 1 0 (le_refl 1)
      (le_refl 1) (fun n => by norm_num)⟩

/-- C10 counterexample: `getStats` is not side-effect free — on a
conversation with no stored state it creates and persists the default
bandit document. -/
theorem getBanditStats_counterexample :
    findState ([] : Store) "c1" = none ∧
    (getBanditStats [] "c1").2 ≠ ([] : Store) := by decide

/-- C10 (amended): `getStats` returns the armId-to-(alpha, beta, pulls)
mapping of the loaded state; its only collection effects are the load's
lazy creation/reconciliation — it never modifies any existing arm's
statistics. -/
theorem getBanditStats_spec (store : Store) (cid : String) :
    (getBanditStats store cid).1 =
      (getOrCreateBanditState store cid).1.arms.map
        (fun a => (a.armId, a.alpha, a.beta, a.pulls)) ∧
    (getBanditStats store cid).2 = (getOrCreateBanditState store cid).2 ∧
    ∀ st : BanditState, findState store cid = some st →
      ∃ rest : List ArmStats,
        findState (getBanditStats store cid).2 cid =
          some ⟨cid, st.arms ++ rest⟩ ∧
        ∀ b ∈ rest, b.alpha = 1 ∧ b.beta = 1 ∧ b.pulls = 0 := by
  refine ⟨rfl, rfl, ?_⟩
  intro st hf
  rw [getBanditStats_snd]
  exact getOrCreate_preserves hf

/-- Witness for the amended C10 on an existing state. -/
theorem getBanditStats_spec_witness :
    (findState [⟨"c1", [⟨"unified_base", 3, 2, 3⟩]⟩] "c1" =
      some ⟨"c1", [⟨"unified_base", 3, 2, 3⟩]⟩) ∧
    ∃ rest : List ArmStats,
      findState (getBanditStats [⟨"c1", [⟨"unified_base", 3, 2, 3⟩]⟩]
          "c1").2 "c1" =
        some ⟨"c1", [⟨"unified_base", 3, 2, 3⟩] ++ rest⟩ ∧
      ∀ b ∈ rest, b.alpha = 1 ∧ b.beta = 1 ∧ b.pulls = 0 :=
  ⟨by decide,
    (getBanditStats_spec [⟨"c1", [⟨"unified_base", 3, 2, 3⟩]⟩] "c1").2.2
      ⟨"c1", [⟨"unified_base", 3, 2, 3⟩]⟩ (by decide)⟩

end ARS
